import Mathlib

/-!
Verification development for the chat-analysis repository.

The repository has two executable variants:
  * `src/src/main.py` — a `ChatAnalyzer` class: calendar-day buckets, a
    synchronous ingestion pass plus a deferred merge of voice-transcript
    tokens, `Counter.most_common` ranking.
  * `src/main.py` — a script: rolling 30-day periods, per-period
    message/word counts, synchronous voice-transcript reads.

Both are shallowly embedded below.  Python `datetime` values are proleptic
Gregorian; comparison and `timedelta(days = n)` arithmetic are order-isomorphic
to the second count used here (`PyDateTime.toSec`).  Fallible Python code is
modelled with `Except PyErr`; a raised exception that no handler catches
surfaces as `Except.error`, which matches the observable behaviour of the
scripts (the partially built local state is discarded when the run aborts).
The morphological analyzer (`pymorphy3`) and the stopword list are injected
capabilities of the `ChatAnalyzer`; they are parameters of the embedding,
exactly as the spec treats them.  The file system is a parameter
`fs : String → Option String` combining `os.path.isfile` and `open(...).read()`.
-/

deriving instance DecidableEq for Except

/-- Python exception classes that the embedded code can raise. -/
inductive PyErr where
  | keyError (k : String)
  | valueError (s : String)
  | typeError
  | attributeError
  | indexError
deriving DecidableEq

/-- JSON-ish Python values, covering the shapes a Telegram-export `text`
field (and its list elements) can take in the analyzed code paths. -/
inductive PyVal where
  | str (s : String)
  | int (n : Int)
  | list (items : List PyVal)
  | dict (fields : List (String × PyVal))
  | none

/-- Lookup in a Python dict modelled as an association list. -/
def assocLookup : List (String × PyVal) → String → Option PyVal
  | [], _ => Option.none
  | (k, v) :: rest, key => if k = key then some v else assocLookup rest key

/-- Join a list of strings with a separator, as Python `sep.join(parts)`. -/
def sjoin (sep : String) : List String → String
  | [] => ""
  | [x] => x
  | x :: xs => x ++ sep ++ sjoin sep xs

/-- A single-quote character, used by the Python `repr` of strings. -/
def pyQuote : String := String.singleton (Char.ofNat 39)

mutual

/-- Python `repr` for the modelled values (string escaping is not modelled;
none of the embedded code paths depend on it). -/
def pyRepr : PyVal → String
  | .str s => pyQuote ++ s ++ pyQuote
  | .int n => toString n
  | .none => "None"
  | .list xs => "[" ++ sjoin ", " (pyReprList xs) ++ "]"
  | .dict fs => "\x7b" ++ sjoin ", " (pyReprFields fs) ++ "\x7d"

/-- `repr` of each element of a Python list. -/
def pyReprList : List PyVal → List String
  | [] => []
  | v :: vs => pyRepr v :: pyReprList vs

/-- `repr` of each `key: value` entry of a Python dict. -/
def pyReprFields : List (String × PyVal) → List String
  | [] => []
  | (k, v) :: fs => (pyQuote ++ k ++ pyQuote ++ ": " ++ pyRepr v) :: pyReprFields fs

end

/-- Python `str(...)` on the modelled values. -/
def pyStr : PyVal → String
  | .str s => s
  | v => pyRepr v

/-- Python `str.split()` with no argument: split on runs of whitespace,
dropping empty pieces.  Auxiliary: `cur` is the current run, reversed. -/
def splitWSAux : List Char → List Char → List String
  | cur, [] => if cur = [] then [] else [String.mk cur.reverse]
  | cur, c :: cs =>
    if c.isWhitespace then
      if cur = [] then splitWSAux [] cs else String.mk cur.reverse :: splitWSAux [] cs
    else splitWSAux (c :: cur) cs

/-- Python `s.split()` (whitespace split). -/
def pySplitWS (s : String) : List String := splitWSAux [] s.data

/-- Split on a single separator character, as Python `s.split(sep)` /
the field structure of the `strptime` format used by the code. -/
def splitCharAux (sep : Char) : List Char → List Char → List (List Char)
  | cur, [] => [cur.reverse]
  | cur, c :: cs =>
    if c = sep then cur.reverse :: splitCharAux sep [] cs
    else splitCharAux sep (c :: cur) cs

/-- Split a string at every occurrence of the separator character. -/
def splitChar (sep : Char) (s : String) : List String :=
  (splitCharAux sep [] s.data).map String.mk

/-- One pass of Python `str.replace(pat, rep)`: replace every non-overlapping
occurrence of `pat`, scanning left to right.  `fuel` (the haystack length at
the top call) only guarantees structural termination; it is never exhausted
because every step consumes at least one character. -/
def replFuel (pat rep : List Char) : Nat → List Char → List Char
  | 0, l => l
  | _ + 1, [] => []
  | fuel + 1, c :: cs =>
    if pat ≠ [] ∧ pat.isPrefixOf (c :: cs) then
      rep ++ replFuel pat rep fuel (List.drop (pat.length - 1) cs)
    else c :: replFuel pat rep fuel cs

/-- Python `s.replace(pat, rep)`: every occurrence of the substring `pat`
is replaced, not only a directory segment or a trailing extension. -/
def pyReplace (s pat rep : String) : String :=
  String.mk (replFuel pat.data rep.data s.data.length s.data)

/-- Python `str.lower()` restricted to the alphabets exercised by the code:
ASCII letters and the Russian Cyrillic block. -/
def lowerChar (c : Char) : Char :=
  let n := c.toNat
  if 65 ≤ n ∧ n ≤ 90 then Char.ofNat (n + 32)
  else if 1040 ≤ n ∧ n ≤ 1071 then Char.ofNat (n + 32)
  else if n = 1025 then Char.ofNat 1105
  else c

/-- Python `text.lower()` (on the modelled alphabets). -/
def pyLower (s : String) : String := String.mk (s.data.map lowerChar)

/-- Python regex `\w` (word character) over the alphabets exercised by the
code: ASCII digits, ASCII letters, underscore, and Cyrillic letters. -/
def isWordChar (c : Char) : Bool :=
  let n := c.toNat
  (48 ≤ n && n ≤ 57) || (65 ≤ n && n ≤ 90) || (97 ≤ n && n ≤ 122) || n == 95 ||
  (1040 ≤ n && n ≤ 1103) || n == 1025 || n == 1105

/-- Maximal runs of word characters, as `re.findall(r'\b\w+\b', text)`.
`cur` is the current run, reversed. -/
def wordRunsAux : List Char → List Char → List String
  | cur, [] => if cur = [] then [] else [String.mk cur.reverse]
  | cur, c :: cs =>
    if isWordChar c then wordRunsAux (c :: cur) cs
    else if cur = [] then wordRunsAux [] cs
    else String.mk cur.reverse :: wordRunsAux [] cs

/-- `re.findall(r'\b\w+\b', text)`. -/
def wordRuns (s : String) : List String := wordRunsAux [] s.data

/-- A calendar date, the bucket key of the calendar-day policy
(`datetime.date` in Python). -/
structure CivilDate where
  year : Nat
  month : Nat
  day : Nat
deriving DecidableEq

/-- A parsed timestamp (`datetime.datetime`, no timezone). -/
structure PyDateTime where
  year : Nat
  month : Nat
  day : Nat
  hour : Nat
  minute : Nat
  second : Nat
deriving DecidableEq

/-- Gregorian leap-year rule used by `datetime`. -/
def isLeapYear (y : Nat) : Bool := y % 4 == 0 && (y % 100 != 0 || y % 400 == 0)

/-- Length of a month in the proleptic Gregorian calendar. -/
def daysInMonth (y m : Nat) : Nat :=
  if m = 2 then (if isLeapYear y then 29 else 28)
  else if m = 4 ∨ m = 6 ∨ m = 9 ∨ m = 11 then 30 else 31

/-- Number of leap years in `1..n`. -/
def leapDays (n : Nat) : Nat := n / 4 - n / 100 + n / 400

/-- Days in the months of year `y` strictly before month `m`. -/
def daysBeforeMonth (y m : Nat) : Nat :=
  ((List.range (m - 1)).map fun i => daysInMonth y (i + 1)).foldl (· + ·) 0

/-- `datetime.toordinal()` shifted to start at 0: day count of the proleptic
Gregorian calendar. -/
def PyDateTime.toOrd (dt : PyDateTime) : Nat :=
  365 * (dt.year - 1) + leapDays (dt.year - 1) + daysBeforeMonth dt.year dt.month + (dt.day - 1)

/-- Seconds since the calendar origin.  `datetime` comparison and
`timedelta(days = n)` addition correspond exactly to `≤` and `+ n * 86400`
on this encoding. -/
def PyDateTime.toSec (dt : PyDateTime) : Nat :=
  86400 * dt.toOrd + 3600 * dt.hour + 60 * dt.minute + dt.second

/-- `datetime.date()`. -/
def PyDateTime.toDate (dt : PyDateTime) : CivilDate := ⟨dt.year, dt.month, dt.day⟩

/-- The string is one or more ASCII digits. -/
def digits (s : String) : Bool := s.length ≥ 1 && s.data.all Char.isDigit

/-- Numeric value of a digit string. -/
def fieldVal (s : String) : Nat := s.data.foldl (fun a c => a * 10 + (c.toNat - 48)) 0

/-- `datetime.strptime(date_str, "%Y-%m-%dT%H:%M:%S")`, raising `ValueError`
exactly when CPython does: the `%Y` field is four digits, the other fields one
or two digits within their ranges, and the assembled date must be a valid
`datetime` (day within month, year at least `MINYEAR = 1`, second below 60).
Both source variants parse with this one format string. -/
def parse_date (s : String) : Except PyErr PyDateTime :=
  match splitChar 'T' s with
  | [dpart, tpart] =>
    match splitChar '-' dpart, splitChar ':' tpart with
    | [ys, ms, ds], [hs, ins, ss] =>
      if digits ys ∧ ys.length = 4 ∧ digits ms ∧ ms.length ≤ 2 ∧ digits ds ∧ ds.length ≤ 2
          ∧ digits hs ∧ hs.length ≤ 2 ∧ digits ins ∧ ins.length ≤ 2
          ∧ digits ss ∧ ss.length ≤ 2 then
        let y := fieldVal ys
        let mo := fieldVal ms
        let d := fieldVal ds
        let h := fieldVal hs
        let mi := fieldVal ins
        let se := fieldVal ss
        if 1 ≤ y ∧ 1 ≤ mo ∧ mo ≤ 12 ∧ 1 ≤ d ∧ d ≤ daysInMonth y mo
            ∧ h ≤ 23 ∧ mi ≤ 59 ∧ se ≤ 59 then
          .ok ⟨y, mo, d, h, mi, se⟩
        else .error (.valueError s)
      else .error (.valueError s)
    | _, _ => .error (.valueError s)
  | _ => .error (.valueError s)

/-- A chat message as both variants read it from the export: the fields the
code accesses.  `Option.none` models an absent key (`date` is accessed with
`message['date']`, so its absence raises `KeyError`; `from` is read with a
fallback in the class-based variant).  `sender` embeds the `from` field
(`from` is reserved in Lean). -/
structure Message where
  date : Option String
  sender : Option String
  media_type : Option String
  file : Option String
  text : Option PyVal

/-- `message[key]` for an optional field: `KeyError` when absent. -/
def getField (o : Option α) (k : String) : Except PyErr α :=
  match o with
  | some v => .ok v
  | Option.none => .error (.keyError k)

/-- The sort key `lambda x: parse_date(x['date'])` of
`sorted(data["messages"], key = ...)`, paired with the message.  CPython
materializes every key before sorting, in list order, so the first message
with a missing or unparsable date aborts the sort. -/
def dateKey (m : Message) : Except PyErr (Nat × Message) := do
  let ds ← getField m.date "date"
  let dt ← parse_date ds
  .ok (dt.toSec, m)

/-- `sorted(messages, key = lambda x: parse_date(x['date']))`: stable sort on
the parsed timestamp (Python `list.sort` is stable; `orderedInsert` with `≤`
keeps the original relative order of equal keys because elements are inserted
from the right). -/
def sortByDate (msgs : List Message) : Except PyErr (List Message) := do
  let keyed ← msgs.mapM dateKey
  .ok ((keyed.insertionSort fun a b => a.1 ≤ b.1).map (·.2))

/-- The injected linguistic capabilities of `ChatAnalyzer`: the stopword set
(`stopwords.words("russian")`, possibly empty when the download fails) and the
first `pymorphy3` parse of a token — its `normal_form` and the grammemes of
its `tag`. -/
structure Analyzer where
  stopwords : List String
  morphNF : String → String
  morphTag : String → List String

/-- The content parts of speech retained by the tokenizer. -/
def contentPos : List String := ["NOUN", "VERB", "ADJS", "ADJF"]

/-- `ChatAnalyzer.tokenize_and_lemmatize`: lowercase, extract `\b\w+\b` runs,
drop stopwords, keep the normal form of tokens whose tag holds one of the
content parts of speech. -/
def tokenize_and_lemmatize (A : Analyzer) (text : String) : List String :=
  let tokens := wordRuns (pyLower text)
  tokens.filterMap fun token =>
    if token ∈ A.stopwords then Option.none
    else if contentPos.any fun pos => pos ∈ A.morphTag token then some (A.morphNF token)
    else Option.none

/-- Normalization of the `text` field in `ChatAnalyzer.analyze_chat`:
a list is joined with single spaces, taking `item['text']` for dict items
(`KeyError` when absent, `TypeError` from `str.join` when not a string) and
`str(item)` otherwise; a value that is neither a string nor a list flows into
`tokenize_and_lemmatize`, where `text.lower()` raises `AttributeError`. -/
def analyzerText (v : PyVal) : Except PyErr String :=
  match v with
  | .str s => .ok s
  | .list items => do
    let parts ← items.mapM fun it =>
      match it with
      | .dict fields =>
        match assocLookup fields "text" with
        | some (.str s) => Except.ok s
        | some _ => Except.error .typeError
        | Option.none => Except.error (.keyError "text")
      | other => Except.ok (pyStr other)
    .ok (sjoin " " parts)
  | _ => .error .attributeError

/-- Per-(bucket, sender) statistics record of the class-based variant:
`defaultdict(lambda: ⟨0, 0, []⟩)`. -/
structure Stats where
  messages : Nat
  words : Nat
  tokens : List String
deriving DecidableEq

/-- The default record created on first access. -/
def Stats.init : Stats := ⟨0, 0, []⟩

/-- The `daily_counts` nested defaultdict: a total map carrying the default,
plus the keys actually touched, in insertion order (Python dict order). -/
structure DailyCounts where
  counts : CivilDate → String → Stats
  dates : List CivilDate
  senders : CivilDate → List String

/-- The empty aggregator created at the start of `analyze_chat`. -/
def DailyCounts.empty : DailyCounts := ⟨fun _ _ => Stats.init, [], fun _ => []⟩

/-- `daily_counts[d][s]` mutated by `f`: defaultdict access registers the
date and sender keys on first touch, in insertion order. -/
def DailyCounts.update (dc : DailyCounts) (d : CivilDate) (s : String) (f : Stats → Stats) :
    DailyCounts where
  counts := fun d2 s2 => if d2 = d ∧ s2 = s then f (dc.counts d s) else dc.counts d2 s2
  dates := if d ∈ dc.dates then dc.dates else dc.dates ++ [d]
  senders := fun d2 =>
    if d2 = d then (if s ∈ dc.senders d then dc.senders d else dc.senders d ++ [s])
    else dc.senders d2

/-- A scheduled voice resolution: the bucket and sender captured at scheduling
time together with the `message['file']` argument of the coroutine. -/
abbrev VoiceTask := CivilDate × String × String

/-- One iteration of the phase-1 loop of `analyze_chat`: bucket by
`parse_date(message['date']).date()`, sender from `message.get('from',
'Unknown')`, always count the message, then either schedule the voice
resolution (evaluating `message['file']` now) or tokenize the inline text. -/
def ingestStep (A : Analyzer) (st : DailyCounts × List VoiceTask) (m : Message) :
    Except PyErr (DailyCounts × List VoiceTask) := do
  let ds ← getField m.date "date"
  let dt ← parse_date ds
  let d := dt.toDate
  let sender := m.sender.getD "Unknown"
  let dc := st.1.update d sender fun r => { r with messages := r.messages + 1 }
  if m.media_type = some "voice_message" then do
    let f ← getField m.file "file"
    .ok (dc, st.2 ++ [(d, sender, f)])
  else do
    let tv := m.text.getD (PyVal.str "")
    let text ← analyzerText tv
    let toks := tokenize_and_lemmatize A text
    .ok (dc.update d sender fun r => { r with tokens := r.tokens ++ toks }, st.2)

/-- Phase 1 of `analyze_chat`: one synchronous pass over the sorted messages,
accumulating the aggregator and the scheduled voice tasks in message order. -/
def phase1 (A : Analyzer) (msgs : List Message) :
    Except PyErr (DailyCounts × List VoiceTask) :=
  msgs.foldlM (ingestStep A) (DailyCounts.empty, [])

/-- The transcript path computed inside `process_voice_message`:
`voice_path.replace("voice_messages", "voice_messages_txt").replace(".ogg", ".txt")`. -/
def txt_path (voice_path : String) : String :=
  pyReplace (pyReplace voice_path "voice_messages" "voice_messages_txt") ".ogg" ".txt"

/-- `ChatAnalyzer.process_voice_message`: derive the transcript path, return
`[]` when the file is missing, otherwise tokenize its full content.  The
Python body catches every exception and returns `[]`; in this total model no
other outcome exists.  The `asyncio.Lock` only serializes the file read. -/
def process_voice_message (A : Analyzer) (fs : String → Option String)
    (voice_path : String) : List String :=
  match fs (txt_path voice_path) with
  | Option.none => []
  | some content => tokenize_and_lemmatize A content

/-- The phase-2 merge of one resolved task: `if tokens: extend else: count it
as unrecognized`. -/
def applyResolved (st : DailyCounts × Nat) (t : VoiceTask) (tokens : List String) :
    DailyCounts × Nat :=
  if tokens ≠ [] then
    (st.1.update t.1 t.2.1 fun r => { r with tokens := r.tokens ++ tokens }, st.2)
  else (st.1, st.2 + 1)

/-- One iteration of the phase-2 loop: await the coroutine (its body runs
now, reading the file system) and merge the result. -/
def phase2Step (A : Analyzer) (fs : String → Option String) (st : DailyCounts × Nat)
    (t : VoiceTask) : DailyCounts × Nat :=
  applyResolved st t (process_voice_message A fs t.2.2)

/-- Phase 2 of `analyze_chat`: the deferred merge walks `voice_tasks` in the
order captured during scheduling. -/
def phase2 (A : Analyzer) (fs : String → Option String) (st : DailyCounts × Nat)
    (tasks : List VoiceTask) : DailyCounts × Nat :=
  tasks.foldl (phase2Step A fs) st

/-- `ChatAnalyzer.analyze_chat` on an already-loaded message list: sort by
timestamp, run the synchronous ingestion pass, then merge the voice
resolutions in scheduled order, returning the aggregator and the
unrecognized-voice counter. -/
def analyze_chat (A : Analyzer) (fs : String → Option String) (msgs : List Message) :
    Except PyErr (DailyCounts × Nat) := do
  let sortedMsgs ← sortByDate msgs
  let (dc, tasks) ← phase1 A sortedMsgs
  .ok (phase2 A fs (dc, 0) tasks)

/-- An explicit completion schedule for the scheduled resolutions: as each
task finishes (in the event-loop order `order`, indices into `tasks`), its
result is written into a table.  Resolution is a pure function of the file
system and the captured path, so the table does not depend on `order`. -/
def resolveStep (A : Analyzer) (fs : String → Option String) (tasks : List VoiceTask)
    (acc : Nat → Option (List String)) (i : Nat) : Nat → Option (List String) :=
  match tasks[i]? with
  | some t => fun j => if j = i then some (process_voice_message A fs t.2.2) else acc j
  | Option.none => acc

/-- The completion table after every completion in `order` has been recorded. -/
def resolveTable (A : Analyzer) (fs : String → Option String) (tasks : List VoiceTask)
    (order : List Nat) : Nat → Option (List String) :=
  order.foldl (resolveStep A fs tasks) (fun _ => Option.none)

/-- The phase-2 merge driven by a completion table: results are applied to the
aggregator strictly in the original scheduling order `0, 1, 2, …`, whatever
order they completed in. -/
def phase2Table (tbl : Nat → Option (List String)) :
    Nat → DailyCounts × Nat → List VoiceTask → DailyCounts × Nat
  | _, st, [] => st
  | i, st, t :: ts => phase2Table tbl (i + 1) (applyResolved st t ((tbl i).getD [])) ts

/-- Per-sender record of the script variant:
`defaultdict(lambda: ⟨0, 0⟩)` with keys `messages` and `words`. -/
structure Stats2 where
  messages : Nat
  words : Nat
deriving DecidableEq

/-- The default record created on first access. -/
def Stats2.init : Stats2 := ⟨0, 0⟩

/-- Mutate `period_count[s]` by `f`, creating the default record on first
access; entries keep dict insertion order. -/
def bumpAssoc (tbl : List (String × Stats2)) (s : String) (f : Stats2 → Stats2) :
    List (String × Stats2) :=
  match tbl with
  | [] => [(s, f Stats2.init)]
  | (k, v) :: rest => if k = s then (k, f v) :: rest else (k, v) :: bumpAssoc rest s f

/-- The script's `count_words(text)`: a list is joined with spaces taking
`item['text']` for dict items and the item itself otherwise (so a non-string
non-dict item makes `str.join` raise `TypeError`), then whitespace-split;
a value with no `split` method raises `AttributeError`. -/
def count_words (v : PyVal) : Except PyErr Nat :=
  match v with
  | .str s => .ok (pySplitWS s).length
  | .list items => do
    let parts ← items.mapM fun it =>
      match it with
      | .dict fields =>
        match assocLookup fields "text" with
        | some (.str s) => Except.ok s
        | some _ => Except.error .typeError
        | Option.none => Except.error (.keyError "text")
      | .str s => Except.ok s
      | _ => Except.error .typeError
    .ok (pySplitWS (sjoin " " parts)).length
  | _ => .error .attributeError

/-- The body of the script's per-period counting loop for one message,
wrapped in `try: ... except KeyError: pass`: a missing `from`, `file` or
`text` key silently skips the rest of the body (mutations already performed
are kept), while a `TypeError` or `AttributeError` from `count_words`
propagates and aborts the run. -/
def periodMsgStep (fs : String → Option String) (st : List (String × Stats2) × Nat)
    (msg : Message) : Except PyErr (List (String × Stats2) × Nat) :=
  match msg.sender with
  | Option.none => .ok st
  | some sender =>
    let tbl := bumpAssoc st.1 sender fun r => { r with messages := r.messages + 1 }
    if msg.media_type = some "voice_message" then
      match msg.file with
      | Option.none => .ok (tbl, st.2)
      | some f =>
        let voicePath := pyReplace (pyReplace f "voice_messages" "voice_messages_txt") ".ogg" ".txt"
        match fs voicePath with
        | some content =>
          .ok (bumpAssoc tbl sender fun r =>
            { r with words := r.words + (pySplitWS content).length }, st.2)
        | Option.none => .ok (tbl, st.2 + 1)
    else
      match msg.text with
      | Option.none => .ok (tbl, st.2)
      | some tv =>
        match count_words tv with
        | .ok n => .ok (bumpAssoc tbl sender fun r => { r with words := r.words + n }, st.2)
        | .error (.keyError _) => .ok (tbl, st.2)
        | .error e => .error e

/-- Flush one period: compute its `period_count` table from the collected
messages, threading the global unrecognized-voice counter. -/
def flushPeriod (fs : String → Option String) (msgs : List Message) (unrec : Nat) :
    Except PyErr (List (String × Stats2) × Nat) :=
  msgs.foldlM (periodMsgStep fs) ([], unrec)

/-- The running state of the script's grouping loop. -/
structure ScriptState where
  periods : List (List Message)
  period_counts : List (List (String × Stats2))
  current_period : List Message
  current_end : Nat
  unrecognized : Nat

/-- One iteration of the script's grouping loop: a message before the current
boundary joins the current period; otherwise the current period is flushed,
the message starts a new period, and the boundary advances by exactly one
width (`current_period_end + timedelta(days=days_per_period)` — a single
step, not a loop). -/
def scriptLoopStep (fs : String → Option String) (width : Nat) (st : ScriptState)
    (m : Message) : Except PyErr ScriptState := do
  let ds ← getField m.date "date"
  let dt ← parse_date ds
  if dt.toSec < st.current_end then
    .ok { st with current_period := st.current_period ++ [m] }
  else do
    let (tbl, u) ← flushPeriod fs st.current_period st.unrecognized
    .ok { periods := st.periods ++ [st.current_period],
          period_counts := st.period_counts ++ [tbl],
          current_period := [m],
          current_end := st.current_end + width,
          unrecognized := u }

/-- The output of the script's period machinery: the flushed periods, their
count tables, and the unrecognized-voice counter.  The loop never flushes the
final `current_period`, so it appears in none of these. -/
structure ScriptResult where
  periods : List (List Message)
  period_counts : List (List (String × Stats2))
  unrecognized : Nat

/-- The script's period pipeline (`src/main.py` lines 44–84): sort by
timestamp (an empty export raises `IndexError` at `messages_sorted[0]`), set
`current_period_end = start + width`, then run the grouping loop. -/
def scriptRun (fs : String → Option String) (daysPerPeriod : Nat) (msgs : List Message) :
    Except PyErr ScriptResult := do
  let sortedMsgs ← sortByDate msgs
  match sortedMsgs with
  | [] => .error .indexError
  | m0 :: _ => do
    let ds0 ← getField m0.date "date"
    let start ← parse_date ds0
    let width := daysPerPeriod * 86400
    let st0 : ScriptState := ⟨[], [], [], start.toSec + width, 0⟩
    let stF ← sortedMsgs.foldlM (scriptLoopStep fs width) st0
    .ok ⟨stF.periods, stF.period_counts, stF.unrecognized⟩

/-- Bump a sender's global message count (`message_count[sender] += 1`). -/
def bumpCount (tbl : List (String × Nat)) (s : String) : List (String × Nat) :=
  match tbl with
  | [] => [(s, 1)]
  | (k, v) :: rest => if k = s then (k, v + 1) :: rest else (k, v) :: bumpCount rest s

/-- The script's first loop (`src/main.py` lines 21–26): global per-sender
message counts, with messages lacking `from` counted in `not_message`. -/
def globalCounts (msgs : List Message) : List (String × Nat) × Nat :=
  msgs.foldl (fun acc m =>
    match m.sender with
    | some s => (bumpCount acc.1 s, acc.2)
    | Option.none => (acc.1, acc.2 + 1)) ([], 0)

/-- First-occurrence deduplication with an explicit seen-set: the key order
of a Python dict (hence of a `Counter`) built by inserting `l` in order. -/
def dedupFirstAux (seen : List String) : List String → List String
  | [] => []
  | x :: xs =>
    if x ∈ seen then dedupFirstAux seen xs
    else x :: dedupFirstAux (x :: seen) xs

/-- The keys of `Counter(l)` in insertion order: first occurrences. -/
def dedupFirst (l : List String) : List String := dedupFirstAux [] l

/-- Index of the first occurrence of `t` in `l` (length of `l` when absent):
the tie-break position used by the ranker claim. -/
def firstIdx : List String → String → Nat
  | [], _ => 0
  | x :: xs, t => if x = t then 0 else firstIdx xs t + 1

/-- Pair each element with its position, starting at `i`. -/
def withIdx : List α → Nat → List (α × Nat)
  | [], _ => []
  | x :: xs, i => (x, i) :: withIdx xs (i + 1)

/-- The comparison `heapq.nlargest` effectively sorts by inside
`Counter.most_common(n)`: count descending, ties broken by the earlier
position in `Counter.items()` (CPython decorates each item with its position
so that equal counts compare by order of appearance). -/
def mcKey (a b : (String × Nat) × Nat) : Prop :=
  b.1.2 < a.1.2 ∨ (a.1.2 = b.1.2 ∧ a.2 ≤ b.2)

instance : DecidableRel mcKey := fun a b => by
  unfold mcKey
  exact inferInstance

instance : IsTotal ((String × Nat) × Nat) mcKey :=
  ⟨by intro a b; unfold mcKey; omega⟩

instance : IsTrans ((String × Nat) × Nat) mcKey :=
  ⟨by intro a b c; unfold mcKey; omega⟩

/-- `Counter(tokens).most_common(k)`: items in first-insertion order, stably
sorted by count descending, first `k` taken.  (`heapq.nlargest(k, items,
key = itemgetter(1))` is documented as `sorted(items, key, reverse=True)[:k]`,
with ties resolved toward earlier items.) -/
def most_common (tokens : List String) (k : Nat) : List (String × Nat) :=
  let items := (dedupFirst tokens).map fun t => (t, tokens.count t)
  let sorted := (withIdx items 0).insertionSort mcKey
  (sorted.map (·.1)).take k

/-- The per-day ranking in `main` (`src/src/main.py` line 204):
`Counter(all_tokens).most_common(5)`. -/
def top5 (tokens : List String) : List (String × Nat) := most_common tokens 5

/-- Modelled from the spec: the path-derivation rule of §4.3 as worded —
substitute the directory segment `voice_messages` (an exact path component)
with `voice_messages_txt` and replace the trailing extension `.ogg` with
`.txt`.  Defined only to compare against the code's `txt_path`, which uses
global substring replacement instead. -/
def specTxtPath (p : String) : String :=
  let segs := (splitChar '/' p).map fun seg =>
    if seg = "voice_messages" then "voice_messages_txt" else seg
  let q := sjoin "/" segs
  if List.isSuffixOf ".ogg".data q.data then String.mk (q.data.take (q.data.length - 4)) ++ ".txt"
  else q

/-- Sum of `messages` over the senders registered in bucket `d`: the total
message count of the bucket. -/
def sumMessages (dc : DailyCounts) (d : CivilDate) : Nat :=
  ((dc.senders d).map fun s => (dc.counts d s).messages).sum

/-- A concrete instance of the injected linguistic capabilities: no stopwords,
every token tagged `NOUN` with itself as normal form.  (With the real
`pymorphy3`, Russian nouns such as `привет` behave exactly like this.) -/
def nounAnalyzer : Analyzer := ⟨[], fun t => t, fun _ => ["NOUN"]⟩

/-- A capability instance whose stopword list contains the conjunction `и`,
as the real Russian stopword list does. -/
def stopAnalyzer : Analyzer := ⟨["и"], fun t => t, fun _ => ["NOUN"]⟩

/-- A file system with no files. -/
def fsEmpty : String → Option String := fun _ => Option.none

/-- An ordinary text message from sender `A`. -/
def msgText (ds body : String) : Message :=
  ⟨some ds, some "A", Option.none, Option.none, some (.str body)⟩

/-- A message with no `from` field. -/
def msgNoFrom (ds body : String) : Message :=
  ⟨some ds, Option.none, Option.none, Option.none, some (.str body)⟩

/-- A voice message from sender `A` carrying a `file` reference. -/
def msgVoice (ds f : String) : Message :=
  ⟨some ds, some "A", some "voice_message", some f, Option.none⟩

/-- A message whose `text` field is the integer `5`. -/
def msgIntText (ds : String) : Message :=
  ⟨some ds, some "A", Option.none, Option.none, some (.int 5)⟩

/-- A message with no `text` field at all. -/
def msgNoText (ds : String) : Message :=
  ⟨some ds, some "A", Option.none, Option.none, Option.none⟩

/-- Observable projection of an analyzer run at one bucket cell: the cell's
record, the bucket totals, and the unrecognized counter. -/
def cellView (x : Except PyErr (DailyCounts × Nat)) (d : CivilDate) (s : String) :
    Except PyErr (Stats × Nat × Nat) :=
  x.map fun r => ((r.1.counts d s), sumMessages r.1 d, r.2)

/-- Observable projection of a script run: the dates of the messages of each
flushed period, the count tables, and the unrecognized counter. -/
def scriptView (x : Except PyErr ScriptResult) :
    Except PyErr (List (List (Option String)) × List (List (String × Stats2)) × Nat) :=
  x.map fun r => (r.periods.map fun p => p.map (·.date), r.period_counts, r.unrecognized)

/-- The run continues iff the `Except` value is not an error. -/
def isErr : Except PyErr α → Bool
  | .error _ => true
  | .ok _ => false

/-- A property of the success value of a fallible computation (vacuous on
error). -/
def onOk (x : Except PyErr α) (p : α → Prop) : Prop :=
  match x with
  | .ok a => p a
  | .error _ => True

instance (x : Except PyErr α) (p : α → Prop) [∀ a, Decidable (p a)] :
    Decidable (onOk x p) := by
  unfold onOk
  cases x <;> infer_instance

/-- A file system holding one transcript at the path the spec's
segment/trailing-extension derivation rule produces for
`voice_messages/a.ogg.ogg` — and nothing else. -/
def fsSpecPath : String → Option String :=
  fun p => if p = "voice_messages_txt/a.ogg.txt" then some "привет" else Option.none

/-- A file system holding the transcript of `voice_messages/1.ogg`. -/
def fsOne : String → Option String :=
  fun p => if p = "voice_messages_txt/1.txt" then some "привет всем" else Option.none

/-- A file system whose only transcript consists entirely of stopwords of
`stopAnalyzer`. -/
def fsStop : String → Option String :=
  fun p => if p = "voice_messages_txt/3.txt" then some "и и" else Option.none

/-- Two scheduled voice tasks, for exercising the completion-order theorem. -/
def tasksTwo : List VoiceTask :=
  [(⟨2024, 1, 1⟩, "A", "voice_messages/1.ogg"), (⟨2024, 1, 2⟩, "B", "voice_messages/3.ogg")]

/-- One concrete voice task whose transcript is entirely stopwords. -/
def taskStop : VoiceTask := (⟨2024, 1, 1⟩, "A", "voice_messages/3.ogg")

/-- Claim C2, counterexample evaluation: with 30-day periods and messages at
2024-01-01, 2024-03-11 (70 days in) and 2024-03-16, the script's single-step
boundary advance places the 2024-03-11 message into flushed period index 1,
although its timestamp is at least `start + 2 · width` — the looped advance
the claim describes would have assigned period index 2.  The cursor is
advanced once per flush, not in a `while t >= currentEnd` loop. -/
theorem c2_single_step_drift :
    scriptView (scriptRun fsEmpty 30
        [msgText "2024-01-01T00:00:00" "x", msgText "2024-03-11T00:00:00" "y",
         msgText "2024-03-16T00:00:00" "z"]) =
      .ok ([[some "2024-01-01T00:00:00"], [some "2024-03-11T00:00:00"]],
           [[("A", ⟨1, 1⟩)], [("A", ⟨1, 1⟩)]], 0) ∧
    onOk (parse_date "2024-03-11T00:00:00") (fun t2 =>
      onOk (parse_date "2024-01-01T00:00:00") fun t0 =>
        t0.toSec + 2 * (30 * 86400) ≤ t2.toSec) := by
  exact ⟨by decide, by decide⟩

/-- Claim C4, counterexample evaluation: a batch holding one valid message
produces zero flushed periods — the grouping loop never flushes the final
`current_period`, so the message is absent from every bucket statistic. -/
theorem c4_final_period_dropped :
    scriptView (scriptRun fsEmpty 30 [msgText "2024-01-01T00:00:00" "hello"]) =
      .ok ([], [], 0) := by
  decide

/-- Claim C1, counterexample: one text message whose body yields one token.
After the run, the cell for (2024-01-01, `A`) holds `words = 0` but a token
list of length 1: `word_count` is initialized and never mutated, so the
claimed invariant `word_count = len(tokens)` fails as soon as any token is
recorded. -/
theorem c1_counterexample :
    cellView (analyze_chat nounAnalyzer fsEmpty [msgText "2024-01-01T10:00:00" "hello"])
        ⟨2024, 1, 1⟩ "A" = .ok (⟨1, 0, ["hello"]⟩, 1, 0) ∧ (0 : Nat) ≠ 1 := by
  exact ⟨by decide, by decide⟩

/-- Claim C3, counterexample: a batch holding a message whose date string has
month 13 makes the whole run abort with `ValueError` — the message is not
skipped, nothing is counted, and no date-parse-failure counter exists in the
code. -/
theorem c3_counterexample :
    (analyze_chat nounAnalyzer fsEmpty
        [msgText "2024-01-01T00:00:00" "x", msgText "2024-13-01T00:00:00" "y"]).map
      (fun _ => (0 : Nat)) = .error (.valueError "2024-13-01T00:00:00") := by
  decide

/-- Claim C7, counterexample (script variant): a message lacking `from`
followed by a message 64 days later.  The first flushed period holds exactly
the from-less message, yet its count table is empty: the script's
`except KeyError: pass` drops the message from the per-period sender
statistics instead of counting it under `Unknown`; it is only counted in the
global `not_message` counter. -/
theorem c7_counterexample :
    scriptView (scriptRun fsEmpty 30
        [msgNoFrom "2024-01-01T00:00:00" "hi", msgText "2024-03-05T00:00:00" "x"]) =
      .ok ([[some "2024-01-01T00:00:00"]], [[]], 0) ∧
    globalCounts [msgNoFrom "2024-01-01T00:00:00" "hi", msgText "2024-03-05T00:00:00" "x"] =
      ([("A", 1)], 1) := by
  exact ⟨by decide, by decide⟩

/-- Claim C8, counterexample: for the reference `voice_messages/a.ogg.ogg`
the code's global substring replacement yields
`voice_messages_txt/a.txt.txt`, not the claim's segment/trailing-extension
derivation `voice_messages_txt/a.ogg.txt`.  With a file system holding a
non-empty transcript at the claimed path, the code resolves nothing. -/
theorem c8_counterexample :
    txt_path "voice_messages/a.ogg.ogg" ≠ specTxtPath "voice_messages/a.ogg.ogg" ∧
    process_voice_message nounAnalyzer fsSpecPath "voice_messages/a.ogg.ogg" = [] ∧
    fsSpecPath (specTxtPath "voice_messages/a.ogg.ogg") = some "привет" ∧
    tokenize_and_lemmatize nounAnalyzer "привет" = ["привет"] := by
  refine ⟨by decide, by decide, by decide, by decide⟩

/-- Claim C9, counterexample: a message whose `text` field is the integer 5
is not treated as empty text — `text.lower()` raises `AttributeError` and
the whole run aborts. -/
theorem c9_counterexample :
    (analyze_chat nounAnalyzer fsEmpty [msgIntText "2024-01-01T10:00:00"]).map
      (fun _ => (0 : Nat)) = .error .attributeError := by
  decide

/-- Claim C10: when a scheduled voice resolution yields an empty token list —
whether because the derived transcript file is missing or because its content
tokenizes to nothing (stopwords only, no content parts of speech) — the
deferred merge increments the unrecognized-voice counter and records no
tokens, and the two causes are indistinguishable in the aggregator. -/
theorem c10_empty_tokens_unrecognized (A : Analyzer) (fs fs2 : String → Option String)
    (st : DailyCounts × Nat) (t : VoiceTask)
    (h1 : process_voice_message A fs t.2.2 = [])
    (h2 : process_voice_message A fs2 t.2.2 = []) :
    phase2Step A fs st t = (st.1, st.2 + 1) ∧ phase2Step A fs st t = phase2Step A fs2 st t := by
  constructor
  · simp [phase2Step, applyResolved, h1]
  · simp [phase2Step, applyResolved, h1, h2]

/-- Claim C10, witness: a transcript file that exists but consists entirely
of the stopword `и` resolves to zero tokens; the merge step counts it as
unrecognized, exactly as it does when the file is missing. -/
theorem c10_witness :
    process_voice_message stopAnalyzer fsStop taskStop.2.2 = [] ∧
    process_voice_message stopAnalyzer fsEmpty taskStop.2.2 = [] ∧
    fsStop (txt_path taskStop.2.2) = some "и и" ∧
    (phase2Step stopAnalyzer fsStop (DailyCounts.empty, 0) taskStop = (DailyCounts.empty, 0 + 1) ∧
     phase2Step stopAnalyzer fsStop (DailyCounts.empty, 0) taskStop =
       phase2Step stopAnalyzer fsEmpty (DailyCounts.empty, 0) taskStop) :=
  ⟨by decide, by decide, by decide,
   c10_empty_tokens_unrecognized stopAnalyzer fsStop fsEmpty (DailyCounts.empty, 0) taskStop
     (by decide) (by decide)⟩

/-- Writing completions into the table never disturbs indices outside
`order`. -/
theorem resolveFold_not_mem (A : Analyzer) (fs : String → Option String)
    (tasks : List VoiceTask) :
    ∀ (order : List Nat) (acc : Nat → Option (List String)) (j : Nat), j ∉ order →
      order.foldl (resolveStep A fs tasks) acc j = acc j := by
  intro order
  induction order with
  | nil => intro acc j _; rfl
  | cons i rest ih =>
    intro acc j hj
    have hji : j ≠ i := fun he => hj (he ▸ List.mem_cons_self i rest)
    have hjr : j ∉ rest := fun hm => hj (List.mem_cons_of_mem i hm)
    rw [List.foldl_cons, ih _ j hjr]
    unfold resolveStep
    cases tasks[i]? with
    | none => rfl
    | some t => simp [hji]

/-- Once index `j` has completed (it occurs in `order`), the table holds the
pure resolution of task `j`, regardless of the rest of the order. -/
theorem resolveFold_mem (A : Analyzer) (fs : String → Option String)
    (tasks : List VoiceTask) :
    ∀ (order : List Nat) (acc : Nat → Option (List String)) (j : Nat) (t : VoiceTask),
      j ∈ order → tasks[j]? = some t →
      order.foldl (resolveStep A fs tasks) acc j = some (process_voice_message A fs t.2.2) := by
  intro order
  induction order with
  | nil => intro acc j t hj _; cases hj
  | cons i rest ih =>
    intro acc j t hj ht
    rw [List.foldl_cons]
    by_cases hjr : j ∈ rest
    · exact ih _ j t hjr ht
    · have hji : j = i := by
        cases List.mem_cons.mp hj with
        | inl h => exact h
        | inr h => exact absurd h hjr
      subst hji
      rw [resolveFold_not_mem A fs tasks rest _ j hjr]
      unfold resolveStep
      rw [ht]
      simp

/-- Applying a complete table in scheduling order coincides with the code's
sequential await-and-merge loop. -/
theorem phase2Table_eq_phase2 (A : Analyzer) (fs : String → Option String) :
    ∀ (ts : List VoiceTask) (tbl : Nat → Option (List String)) (i : Nat)
      (st : DailyCounts × Nat),
      (∀ j t, ts[j]? = some t → tbl (i + j) = some (process_voice_message A fs t.2.2)) →
      phase2Table tbl i st ts = phase2 A fs st ts := by
  intro ts
  induction ts with
  | nil => intro tbl i st _; rfl
  | cons t ts2 ih =>
    intro tbl i st h
    have h0 : tbl i = some (process_voice_message A fs t.2.2) := by
      have := h 0 t (by simp)
      simpa using this
    have hshift : ∀ j t2, ts2[j]? = some t2 →
        tbl ((i + 1) + j) = some (process_voice_message A fs t2.2.2) := by
      intro j t2 hj
      have : tbl (i + (j + 1)) = some (process_voice_message A fs t2.2.2) := by
        refine h (j + 1) t2 ?_
        simpa using hj
      simpa [Nat.add_assoc, Nat.add_comm 1 j] using this
    show phase2Table tbl (i + 1) (applyResolved st t ((tbl i).getD [])) ts2 = _
    rw [h0]
    rw [ih tbl (i + 1) _ hshift]
    rfl

/-- Claim C5: the pipeline is deterministic.  Re-running `analyze_chat` on
the same batch, configuration and file system gives the same value, and —
the substantive half — the deferred merge is independent of the internal
completion order of the scheduled resolutions: for any completion order that
covers every scheduled task, recording completions into a table and applying
them strictly in the original scheduling order yields exactly the result of
the code's sequential await loop, because each resolution is a pure function
of the file system and the path captured at scheduling time. -/
theorem c5_deterministic_order_independent :
    (∀ (A : Analyzer) (fs : String → Option String) (msgs : List Message),
      analyze_chat A fs msgs = analyze_chat A fs msgs) ∧
    ∀ (A : Analyzer) (fs : String → Option String) (dc : DailyCounts)
      (tasks : List VoiceTask) (order : List Nat),
      (∀ i, i < tasks.length → i ∈ order) →
      phase2Table (resolveTable A fs tasks order) 0 (dc, 0) tasks =
        phase2 A fs (dc, 0) tasks := by
  constructor
  · intro A fs msgs; rfl
  · intro A fs dc tasks order hcover
    refine phase2Table_eq_phase2 A fs tasks (resolveTable A fs tasks order) 0 (dc, 0) ?_
    intro j t hj
    have hlt : j < tasks.length := by
      rw [List.getElem?_eq_some] at hj
      exact hj.1
    rw [Nat.zero_add]
    exact resolveFold_mem A fs tasks order _ j t (hcover j hlt) hj

/-- Claim C5, witness: two scheduled tasks completed in reversed order `[1,
0]` still merge into the aggregator exactly as the sequential loop does. -/
theorem c5_witness :
    (∀ i, i < tasksTwo.length → i ∈ [1, 0]) ∧
    phase2Table (resolveTable nounAnalyzer fsOne tasksTwo [1, 0]) 0 (DailyCounts.empty, 0)
        tasksTwo =
      phase2 nounAnalyzer fsOne (DailyCounts.empty, 0) tasksTwo :=
  ⟨by decide,
   c5_deterministic_order_independent.2 nounAnalyzer fsOne DailyCounts.empty tasksTwo [1, 0]
     (by decide)⟩

/-- Inversion of a successful `Except` bind. -/
theorem bind_ok (x : Except PyErr α) (f : α → Except PyErr β) (b : β)
    (h : (x >>= f) = .ok b) : ∃ a, x = .ok a ∧ f a = .ok b := by
  cases x with
  | error e => simp [Bind.bind, Except.bind] at h
  | ok a => exact ⟨a, rfl, by simpa [Bind.bind, Except.bind] using h⟩

/-- Cell updates whose mutation leaves `words` unchanged preserve the
all-cells-zero property. -/
theorem wordsZero_update (dc : DailyCounts) (d : CivilDate) (s : String) (f : Stats → Stats)
    (hf : ∀ r, (f r).words = r.words) (h : ∀ d2 s2, (dc.counts d2 s2).words = 0) :
    ∀ d2 s2, ((dc.update d s f).counts d2 s2).words = 0 := by
  intro d2 s2
  unfold DailyCounts.update
  dsimp only
  split
  · rw [hf]; exact h d s
  · exact h d2 s2

/-- The phase-1 step never touches `words`. -/
theorem wordsZero_ingest (A : Analyzer) (st st2 : DailyCounts × List VoiceTask) (m : Message)
    (h : ∀ d2 s2, (st.1.counts d2 s2).words = 0) (he : ingestStep A st m = .ok st2) :
    ∀ d2 s2, (st2.1.counts d2 s2).words = 0 := by
  unfold ingestStep at he
  obtain ⟨ds, hds, he⟩ := bind_ok _ _ _ he
  obtain ⟨dt, hdt, he⟩ := bind_ok _ _ _ he
  dsimp only at he
  split at he
  · obtain ⟨f, hf, he⟩ := bind_ok _ _ _ he
    cases he
    have hz : ∀ d2 s2,
        ((st.1.update dt.toDate (m.sender.getD "Unknown")
          fun r => { r with messages := r.messages + 1 }).counts d2 s2).words = 0 := by
      apply wordsZero_update
      · intro r; rfl
      · exact h
    exact hz
  · obtain ⟨text, htext, he⟩ := bind_ok _ _ _ he
    cases he
    have hz : ∀ d2 s2,
        (((st.1.update dt.toDate (m.sender.getD "Unknown")
            fun r => { r with messages := r.messages + 1 }).update dt.toDate
              (m.sender.getD "Unknown")
            fun r => { r with tokens := r.tokens ++ tokenize_and_lemmatize A text }).counts
          d2 s2).words = 0 := by
      apply wordsZero_update
      · intro r; rfl
      · apply wordsZero_update
        · intro r; rfl
        · exact h
    exact hz

/-- Phase 1 never touches `words`. -/
theorem wordsZero_phase1 (A : Analyzer) :
    ∀ (msgs : List Message) (st st2 : DailyCounts × List VoiceTask),
      (∀ d2 s2, (st.1.counts d2 s2).words = 0) →
      msgs.foldlM (ingestStep A) st = .ok st2 →
      ∀ d2 s2, (st2.1.counts d2 s2).words = 0 := by
  intro msgs
  induction msgs with
  | nil =>
    intro st st2 h he
    rw [List.foldlM_nil] at he
    cases he
    exact h
  | cons m ms ih =>
    intro st st2 h he
    rw [List.foldlM_cons] at he
    obtain ⟨st1, h1, he⟩ := bind_ok _ _ _ he
    exact ih st1 st2 (wordsZero_ingest A st st1 m h h1) he

/-- The phase-2 merge step never touches `words`. -/
theorem wordsZero_phase2Step (A : Analyzer) (fs : String → Option String)
    (st : DailyCounts × Nat) (t : VoiceTask)
    (h : ∀ d2 s2, (st.1.counts d2 s2).words = 0) :
    ∀ d2 s2, ((phase2Step A fs st t).1.counts d2 s2).words = 0 := by
  unfold phase2Step applyResolved
  split
  · have hz : ∀ d2 s2,
        ((st.1.update t.1 t.2.1
          fun r => { r with tokens := r.tokens ++ process_voice_message A fs t.2.2 }).counts
            d2 s2).words = 0 := by
      apply wordsZero_update
      · intro r; rfl
      · exact h
    exact hz
  · exact h

/-- Phase 2 never touches `words`. -/
theorem wordsZero_phase2 (A : Analyzer) (fs : String → Option String) :
    ∀ (tasks : List VoiceTask) (st : DailyCounts × Nat),
      (∀ d2 s2, (st.1.counts d2 s2).words = 0) →
      ∀ d2 s2, ((phase2 A fs st tasks).1.counts d2 s2).words = 0 := by
  intro tasks
  induction tasks with
  | nil => intro st h; exact h
  | cons t ts ih =>
    intro st h
    show ∀ d2 s2, (((t :: ts).foldl (phase2Step A fs) st).1.counts d2 s2).words = 0
    rw [List.foldl_cons]
    exact ih (phase2Step A fs st t) (wordsZero_phase2Step A fs st t h)

/-- Claim C1 (amended): in every successful run of `analyze_chat`, the
`words` field of every (bucket, sender) record is `0` — it is initialized by
the defaultdict and never mutated by any phase, while `tokens` does grow, so
`word_count = len(tokens)` holds only for records with no recorded tokens.
The code never maintains the claimed invariant. -/
theorem c1_word_count_never_updated :
    ∀ (A : Analyzer) (fs : String → Option String) (msgs : List Message),
      onOk (analyze_chat A fs msgs) fun r => ∀ d s, (r.1.counts d s).words = 0 := by
  intro A fs msgs
  unfold analyze_chat
  cases hs : sortByDate msgs with
  | error e => simp [hs, onOk, Bind.bind, Except.bind]
  | ok sortedMsgs =>
    cases hp : phase1 A sortedMsgs with
    | error e => simp [hs, onOk, Bind.bind, Except.bind, hp]
    | ok p =>
      simp only [hs, Bind.bind, Except.bind, hp, onOk]
      obtain ⟨dc, tasks⟩ := p
      exact wordsZero_phase2 A fs tasks (dc, 0)
        (wordsZero_phase1 A sortedMsgs (DailyCounts.empty, []) (dc, tasks)
          (fun d2 s2 => rfl) hp)

/-- A message whose date field fails to parse makes `dateKey` fail. -/
theorem dateKey_err (m : Message) (ds : String) (hdate : m.date = some ds)
    (hbad : isErr (parse_date ds) = true) : isErr (dateKey m) = true := by
  unfold dateKey getField
  rw [hdate]
  cases hp : parse_date ds with
  | error e => simp [hp, Bind.bind, Except.bind, isErr]
  | ok dt => rw [hp] at hbad; simp [isErr] at hbad

/-- `mapM dateKey` fails as soon as any message's key fails. -/
theorem mapM_dateKey_err :
    ∀ (l : List Message), (∃ m ∈ l, isErr (dateKey m) = true) →
      isErr (l.mapM dateKey) = true := by
  intro l
  induction l with
  | nil => rintro ⟨m, hm, _⟩; cases hm
  | cons a t ih =>
    rintro ⟨m, hm, hbad⟩
    rw [List.mapM_cons]
    cases hda : dateKey a with
    | error e => simp [hda, Bind.bind, Except.bind, isErr]
    | ok k =>
      have hmt : m ∈ t := by
        cases List.mem_cons.mp hm with
        | inl h => subst h; rw [hda] at hbad; simp [isErr] at hbad
        | inr h => exact h
      have hrec := ih ⟨m, hmt, hbad⟩
      cases hmt2 : t.mapM dateKey with
      | error e => simp [hda, hmt2, Bind.bind, Except.bind, isErr]
      | ok ks => rw [hmt2] at hrec; simp [isErr] at hrec

/-- The timestamp sort fails as soon as any message's key fails: CPython
materializes every sort key, so the exception from the bad one propagates. -/
theorem sortByDate_err (msgs : List Message) (h : ∃ m ∈ msgs, isErr (dateKey m) = true) :
    isErr (sortByDate msgs) = true := by
  unfold sortByDate
  have hmm := mapM_dateKey_err msgs h
  cases hm : msgs.mapM dateKey with
  | error e => simp [hm, Bind.bind, Except.bind, isErr]
  | ok ks => rw [hm] at hmm; simp [isErr] at hmm

/-- Claim C3 (amended): a message whose date string does not parse in the
format `YYYY-MM-DDTHH:MM:SS` aborts the whole run — in both variants the
`ValueError` escapes through the sort-key computation; the message is not
skipped and no date-parse-failure counter exists. -/
theorem c3_unparsable_date_aborts :
    ∀ (msgs : List Message) (m : Message) (ds : String),
      m ∈ msgs → m.date = some ds → isErr (parse_date ds) = true →
      ∀ (A : Analyzer) (fs : String → Option String) (dpp : Nat),
        isErr (analyze_chat A fs msgs) = true ∧ isErr (scriptRun fs dpp msgs) = true := by
  intro msgs m ds hmem hdate hbad A fs dpp
  have hsort := sortByDate_err msgs ⟨m, hmem, dateKey_err m ds hdate hbad⟩
  constructor
  · unfold analyze_chat
    cases hs : sortByDate msgs with
    | error e => simp [hs, Bind.bind, Except.bind, isErr]
    | ok l => rw [hs] at hsort; simp [isErr] at hsort
  · unfold scriptRun
    cases hs : sortByDate msgs with
    | error e => simp [hs, Bind.bind, Except.bind, isErr]
    | ok l => rw [hs] at hsort; simp [isErr] at hsort

/-- Claim C3, witness: a concrete batch with a month-13 date aborts both
variants. -/
theorem c3_witness :
    isErr (analyze_chat nounAnalyzer fsEmpty
      [msgText "2024-01-01T00:00:00" "x", msgText "2024-13-01T00:00:00" "y"]) = true ∧
    isErr (scriptRun fsEmpty 30
      [msgText "2024-01-01T00:00:00" "x", msgText "2024-13-01T00:00:00" "y"]) = true :=
  c3_unparsable_date_aborts _ (msgText "2024-13-01T00:00:00" "y") "2024-13-01T00:00:00"
    (List.mem_cons_of_mem _ (List.mem_cons_self _ _)) rfl (by decide)
    nounAnalyzer fsEmpty 30

/-- Claim C8 (amended): transcript resolution derives the path by replacing
every occurrence of the substring `voice_messages` with `voice_messages_txt`
and every occurrence of the substring `.ogg` with `.txt` (global substring
replacement, not a directory-segment / trailing-extension rule — the two
agree on references holding a single `voice_messages` segment and a single
trailing `.ogg`, as the concrete conjuncts show).  When the derived path is
absent it yields zero tokens and never raises; otherwise it yields the
tokenization of the file's full text content. -/
theorem c8_resolution_behaviour :
    ∀ (A : Analyzer) (fs : String → Option String) (p : String),
      (fs (txt_path p) = Option.none → process_voice_message A fs p = []) ∧
      (∀ c, fs (txt_path p) = some c →
        process_voice_message A fs p = tokenize_and_lemmatize A c) ∧
      txt_path "chats/chat01/voice_messages/msg123.ogg" =
        "chats/chat01/voice_messages_txt/msg123.txt" ∧
      specTxtPath "chats/chat01/voice_messages/msg123.ogg" =
        txt_path "chats/chat01/voice_messages/msg123.ogg" := by
  intro A fs p
  refine ⟨?_, ?_, by decide, by decide⟩
  · intro h
    unfold process_voice_message
    rw [h]
  · intro c h
    unfold process_voice_message
    rw [h]

/-- Claim C8, witness: the missing-file and present-file behaviours at
concrete references, through the code's derived path. -/
theorem c8_witness :
    process_voice_message nounAnalyzer fsEmpty "voice_messages/9.ogg" = [] ∧
    fsOne (txt_path "voice_messages/1.ogg") = some "привет всем" ∧
    process_voice_message nounAnalyzer fsOne "voice_messages/1.ogg" =
      tokenize_and_lemmatize nounAnalyzer "привет всем" :=
  ⟨(c8_resolution_behaviour nounAnalyzer fsEmpty "voice_messages/9.ogg").1 rfl,
   by decide,
   (c8_resolution_behaviour nounAnalyzer fsOne "voice_messages/1.ogg").2.1 _ (by decide)⟩

/-- Tokenizing the empty string yields no tokens, for every capability
instance. -/
theorem tokenize_empty (A : Analyzer) : tokenize_and_lemmatize A "" = [] := rfl

/-- `dateKey` on a message with a parsable date. -/
theorem dateKey_ok (m : Message) (ds : String) (dt : PyDateTime)
    (hdate : m.date = some ds) (hparse : parse_date ds = .ok dt) :
    dateKey m = .ok (dt.toSec, m) := by
  unfold dateKey getField
  rw [hdate]
  simp [Bind.bind, Except.bind, hparse]

/-- `analyze_chat` on a single parsable message reduces to one ingestion step
followed by the deferred merge. -/
theorem analyze_chat_singleton (A : Analyzer) (fs : String → Option String) (m : Message)
    (ds : String) (dt : PyDateTime) (hdate : m.date = some ds)
    (hparse : parse_date ds = .ok dt) :
    analyze_chat A fs [m] =
      match ingestStep A (DailyCounts.empty, []) m with
      | .ok (dc, tasks) => .ok (phase2 A fs (dc, 0) tasks)
      | .error e => .error e := by
  unfold analyze_chat sortByDate phase1
  rw [List.mapM_cons]
  simp only [dateKey_ok m ds dt hdate hparse, List.mapM_nil, List.insertionSort,
    List.orderedInsert, List.map_cons, List.map_nil, List.foldlM_cons, List.foldlM_nil,
    Bind.bind, Except.bind, pure, Except.pure]
  cases hi : ingestStep A (DailyCounts.empty, []) m with
  | error e => rfl
  | ok p => cases p; rfl

/-- Claim C9 (amended): the `text` field handling of `analyze_chat`.  A
missing `text` is treated as the empty string: zero tokens, run continues.
A value that is neither a plain string nor a list is NOT treated as empty
text — `text.lower()` raises `AttributeError` and the whole batch aborts. -/
theorem c9_text_shapes :
    (∀ (A : Analyzer) (fs : String → Option String) (m : Message) (ds : String)
        (dt : PyDateTime) (v : PyVal),
      m.date = some ds → parse_date ds = .ok dt →
      m.media_type ≠ some "voice_message" → m.text = some v →
      (∀ s, v ≠ .str s) → (∀ l, v ≠ .list l) →
      (analyze_chat A fs [m]).map (fun _ => (0 : Nat)) = .error .attributeError) ∧
    ∀ (A : Analyzer) (fs : String → Option String) (m : Message) (ds : String)
        (dt : PyDateTime),
      m.date = some ds → parse_date ds = .ok dt →
      m.media_type ≠ some "voice_message" → m.text = Option.none →
      cellView (analyze_chat A fs [m]) dt.toDate (m.sender.getD "Unknown") =
        .ok (⟨1, 0, []⟩, 1, 0) := by
  constructor
  · intro A fs m ds dt v hdate hparse hmedia htext hstr hlist
    have hav : analyzerText v = .error .attributeError := by
      cases v with
      | str s => exact absurd rfl (hstr s)
      | list l => exact absurd rfl (hlist l)
      | int n => rfl
      | dict fl => rfl
      | none => rfl
    have hi : ingestStep A (DailyCounts.empty, []) m = .error .attributeError := by
      unfold ingestStep getField
      rw [hdate, htext]
      simp [Bind.bind, Except.bind, hparse, hmedia, Option.getD, hav]
    rw [analyze_chat_singleton A fs m ds dt hdate hparse, hi]
    rfl
  · intro A fs m ds dt hdate hparse hmedia htext
    have hi : ingestStep A (DailyCounts.empty, []) m =
        .ok ((DailyCounts.empty.update dt.toDate (m.sender.getD "Unknown")
            fun r => { r with messages := r.messages + 1 }).update dt.toDate
            (m.sender.getD "Unknown")
            (fun r => { r with tokens := r.tokens ++ tokenize_and_lemmatize A "" }), []) := by
      unfold ingestStep getField
      rw [hdate, htext]
      simp [Bind.bind, Except.bind, hparse, hmedia, analyzerText]
    rw [analyze_chat_singleton A fs m ds dt hdate hparse, hi]
    simp [cellView, phase2, Except.map, sumMessages, DailyCounts.update, DailyCounts.empty,
          Stats.init, tokenize_empty]

/-- Claim C9, witness: an integer-valued `text` aborts the run; an absent
`text` contributes zero tokens and the run continues. -/
theorem c9_witness :
    (analyze_chat nounAnalyzer fsEmpty [msgIntText "2024-01-01T10:00:00"]).map
        (fun _ => (0 : Nat)) = .error .attributeError ∧
    cellView (analyze_chat nounAnalyzer fsEmpty [msgNoText "2024-01-01T10:00:00"])
        ⟨2024, 1, 1⟩ "A" = .ok (⟨1, 0, []⟩, 1, 0) :=
  ⟨c9_text_shapes.1 nounAnalyzer fsEmpty _ "2024-01-01T10:00:00" ⟨2024, 1, 1, 10, 0, 0⟩
      (.int 5) rfl (by decide) (by decide) rfl (fun s h => by cases h) (fun l h => by cases h),
   c9_text_shapes.2 nounAnalyzer fsEmpty _ "2024-01-01T10:00:00" ⟨2024, 1, 1, 10, 0, 0⟩
      rfl (by decide) (by decide) rfl⟩

/-- Summing a function over a duplicate-free list after incrementing it at
one member. -/
theorem sum_bump (l : List String) (g g2 : String → Nat) (s : String)
    (hnd : l.Nodup) (hmem : s ∈ l) (hs : g2 s = g s + 1)
    (hother : ∀ x, x ≠ s → g2 x = g x) :
    (l.map g2).sum = (l.map g).sum + 1 := by
  induction l with
  | nil => cases hmem
  | cons a t ih =>
    rw [List.map_cons, List.map_cons, List.sum_cons, List.sum_cons]
    cases List.mem_cons.mp hmem with
    | inl h =>
      subst h
      have hne : ∀ x ∈ t, x ≠ s := fun x hx he => (List.nodup_cons.mp hnd).1 (he ▸ hx)
      rw [hs, List.map_congr_left fun x hx => hother x (hne x hx)]
      omega
    | inr h =>
      have hna : a ≠ s := fun he => (List.nodup_cons.mp hnd).1 (he ▸ h)
      rw [hother a hna, ih (List.nodup_cons.mp hnd).2 h]
      omega

/-- Summing over a list extended with a fresh member whose value is one. -/
theorem sum_append_new (l : List String) (g g2 : String → Nat) (s : String)
    (hs : g2 s = 1) (hother : ∀ x, x ≠ s → g2 x = g x) (hns : s ∉ l) :
    ((l ++ [s]).map g2).sum = (l.map g).sum + 1 := by
  rw [List.map_append, List.sum_append,
    List.map_congr_left (fun x hx => hother x fun he => hns (he ▸ hx))]
  simp [hs]

/-- Incrementing `messages` at sender `s` of bucket `d` raises the bucket
total by exactly one, whether or not `s` was already registered. -/
theorem sumMessages_bump (dc : DailyCounts) (d : CivilDate) (s : String)
    (hnd : (dc.senders d).Nodup)
    (hwf : ∀ s2, s2 ∉ dc.senders d → dc.counts d s2 = Stats.init) :
    sumMessages (dc.update d s fun r => { r with messages := r.messages + 1 }) d =
      sumMessages dc d + 1 := by
  unfold sumMessages DailyCounts.update
  dsimp only
  rw [if_pos rfl]
  by_cases hmem : s ∈ dc.senders d
  · rw [if_pos hmem]
    apply sum_bump (dc.senders d) _ _ s hnd hmem
    · simp
    · intro x hx
      simp [hx]
  · rw [if_neg hmem]
    apply sum_append_new (dc.senders d) _ _ s
    · simp [hwf s hmem, Stats.init]
    · intro x hx
      simp [hx]
    · exact hmem

/-- A mutation that leaves `messages` unchanged changes no cell's message
count. -/
theorem counts_messages_update (dc : DailyCounts) (d : CivilDate) (s : String)
    (f : Stats → Stats) (hf : ∀ r, (f r).messages = r.messages) :
    ∀ d2 s2, ((dc.update d s f).counts d2 s2).messages = (dc.counts d2 s2).messages := by
  intro d2 s2
  unfold DailyCounts.update
  dsimp only
  split
  · rename_i hcond
    obtain ⟨hd, hs2⟩ := hcond
    subst hd
    subst hs2
    exact hf _
  · rfl

/-- Updating an already-registered sender leaves every sender list as it
was. -/
theorem senders_update_mem (dc : DailyCounts) (d : CivilDate) (s : String) (f : Stats → Stats)
    (hmem : s ∈ dc.senders d) : ∀ d2, (dc.update d s f).senders d2 = dc.senders d2 := by
  intro d2
  unfold DailyCounts.update
  dsimp only
  by_cases hd : d2 = d
  · subst hd
    rw [if_pos rfl, if_pos hmem]
  · rw [if_neg hd]

/-- After any update at `(d, s)` the sender `s` is registered in bucket
`d`. -/
theorem mem_senders_update (dc : DailyCounts) (d : CivilDate) (s : String) (f : Stats → Stats) :
    s ∈ (dc.update d s f).senders d := by
  unfold DailyCounts.update
  dsimp only
  rw [if_pos rfl]
  by_cases hmem : s ∈ dc.senders d
  · rw [if_pos hmem]
    exact hmem
  · rw [if_neg hmem]
    exact List.mem_append_right _ (List.mem_singleton.mpr rfl)

/-- A messages-preserving update at a registered sender leaves the bucket
total unchanged. -/
theorem sumMessages_update_preserve (dc : DailyCounts) (d : CivilDate) (s : String)
    (f : Stats → Stats) (hf : ∀ r, (f r).messages = r.messages)
    (hmem : s ∈ dc.senders d) :
    sumMessages (dc.update d s f) d = sumMessages dc d := by
  unfold sumMessages
  rw [senders_update_mem dc d s f hmem d]
  exact congrArg List.sum (List.map_congr_left fun x _ => counts_messages_update dc d s f hf d x)

/-- Claim C7 (amended): in the class-based analyzer, a message lacking `from`
is counted under the sentinel sender `Unknown` in the bucket of its
timestamp, and the bucket's total message count (summed over all registered
senders) grows by exactly one.  (The script variant instead drops such a
message from the per-period sender statistics — see the counterexample.) -/
theorem c7_sentinel_unknown :
    ∀ (A : Analyzer) (dc : DailyCounts) (tasks : List VoiceTask) (m : Message)
      (ds : String) (dt : PyDateTime),
      m.date = some ds → parse_date ds = .ok dt → m.sender = Option.none →
      (dc.senders dt.toDate).Nodup →
      (∀ s2, s2 ∉ dc.senders dt.toDate → dc.counts dt.toDate s2 = Stats.init) →
      onOk (ingestStep A (dc, tasks) m) fun st2 =>
        (st2.1.counts dt.toDate "Unknown").messages =
          (dc.counts dt.toDate "Unknown").messages + 1 ∧
        sumMessages st2.1 dt.toDate = sumMessages dc dt.toDate + 1 := by
  intro A dc tasks m ds dt hdate hparse hsender hnd hwf
  have hmsg : ((dc.update dt.toDate "Unknown"
      fun r => { r with messages := r.messages + 1 }).counts dt.toDate "Unknown").messages =
      (dc.counts dt.toDate "Unknown").messages + 1 := by
    unfold DailyCounts.update
    dsimp only
    rw [if_pos ⟨rfl, rfl⟩]
  have hsum1 := sumMessages_bump dc dt.toDate "Unknown" hnd hwf
  unfold ingestStep getField
  simp only [hdate, hsender, hparse, Bind.bind, Except.bind, Option.getD_none]
  split
  · cases m.file with
    | none => exact trivial
    | some f => exact ⟨hmsg, hsum1⟩
  · cases hat : analyzerText (m.text.getD (PyVal.str "")) with
    | error e =>
      simp only [hat]
      exact trivial
    | ok text =>
      simp only [hat]
      refine ⟨?_, ?_⟩
      · rw [counts_messages_update
          (dc.update dt.toDate "Unknown" fun r => { r with messages := r.messages + 1 })
          dt.toDate "Unknown"
          (fun r => { r with tokens := r.tokens ++ tokenize_and_lemmatize A text })
          (fun r => rfl)]
        exact hmsg
      · rw [sumMessages_update_preserve
          (dc.update dt.toDate "Unknown" fun r => { r with messages := r.messages + 1 })
          dt.toDate "Unknown"
          (fun r => { r with tokens := r.tokens ++ tokenize_and_lemmatize A text })
          (fun r => rfl)
          (mem_senders_update dc dt.toDate "Unknown"
            (fun r => { r with messages := r.messages + 1 }))]
        exact hsum1

/-- Claim C7, witness: ingesting a from-less message into the empty
aggregator registers it under `Unknown` and the bucket total includes it. -/
theorem c7_witness :
    onOk (ingestStep nounAnalyzer (DailyCounts.empty, []) (msgNoFrom "2024-01-01T10:00:00" "hi"))
      (fun st2 =>
        (st2.1.counts ⟨2024, 1, 1⟩ "Unknown").messages =
          (DailyCounts.empty.counts ⟨2024, 1, 1⟩ "Unknown").messages + 1 ∧
        sumMessages st2.1 ⟨2024, 1, 1⟩ = sumMessages DailyCounts.empty ⟨2024, 1, 1⟩ + 1) :=
  c7_sentinel_unknown nounAnalyzer DailyCounts.empty [] (msgNoFrom "2024-01-01T10:00:00" "hi")
    "2024-01-01T10:00:00" ⟨2024, 1, 1, 10, 0, 0⟩ rfl (by decide) rfl (by simp [DailyCounts.empty])
    (fun s2 _ => rfl)

/-- Every element the deduplication emits comes from the remaining input and
was not seen before. -/
theorem dedupAux_mem :
    ∀ (l seen : List String) (x : String), x ∈ dedupFirstAux seen l → x ∈ l ∧ x ∉ seen := by
  intro l
  induction l with
  | nil => intro seen x hx; cases hx
  | cons a t ih =>
    intro seen x hx
    by_cases ha : a ∈ seen
    · rw [dedupFirstAux, if_pos ha] at hx
      obtain ⟨h1, h2⟩ := ih seen x hx
      exact ⟨List.mem_cons_of_mem a h1, h2⟩
    · rw [dedupFirstAux, if_neg ha] at hx
      cases List.mem_cons.mp hx with
      | inl h => exact ⟨h ▸ List.mem_cons_self a t, h ▸ ha⟩
      | inr h =>
        obtain ⟨h1, h2⟩ := ih (a :: seen) x h
        exact ⟨List.mem_cons_of_mem a h1, fun hs => h2 (List.mem_cons_of_mem a hs)⟩

/-- The emitted keys appear in strictly increasing order of first
occurrence. -/
theorem dedupAux_pairwise :
    ∀ (l seen : List String),
      List.Pairwise (fun a b => firstIdx l a < firstIdx l b) (dedupFirstAux seen l) := by
  intro l
  induction l with
  | nil => intro seen; exact List.Pairwise.nil
  | cons a t ih =>
    intro seen
    have transfer : ∀ (s2 : List String),
        (∀ x ∈ dedupFirstAux s2 t, x ≠ a) →
        List.Pairwise (fun x y => firstIdx (a :: t) x < firstIdx (a :: t) y)
          (dedupFirstAux s2 t) := by
      intro s2 hne
      refine List.Pairwise.imp_of_mem ?_ (ih s2)
      intro x y hx hy hlt
      have hxa : ¬(a = x) := fun he => hne x hx he.symm
      have hya : ¬(a = y) := fun he => hne y hy he.symm
      rw [firstIdx, if_neg hxa, firstIdx, if_neg hya]
      omega
    by_cases ha : a ∈ seen
    · rw [dedupFirstAux, if_pos ha]
      refine transfer seen fun x hx he => ?_
      exact (dedupAux_mem t seen x hx).2 (he ▸ ha)
    · rw [dedupFirstAux, if_neg ha]
      refine List.pairwise_cons.mpr ⟨?_, ?_⟩
      · intro y hy
        have hym := dedupAux_mem t (a :: seen) y hy
        have hya : ¬(a = y) := fun he => hym.2 (he ▸ List.mem_cons_self a seen)
        rw [firstIdx, if_pos rfl, firstIdx, if_neg hya]
        omega
      · refine transfer (a :: seen) fun x hx he => ?_
        exact (dedupAux_mem t (a :: seen) x hx).2 (he ▸ List.mem_cons_self a seen)

/-- Membership in the index decoration: the payload is the list entry at the
carried index. -/
theorem withIdx_mem :
    ∀ (l : List (String × Nat)) (i : Nat) (p : (String × Nat) × Nat), p ∈ withIdx l i →
      ∃ k, l[k]? = some p.1 ∧ p.2 = i + k := by
  intro l
  induction l with
  | nil => intro i p hp; cases hp
  | cons x xs ih =>
    intro i p hp
    cases List.mem_cons.mp hp with
    | inl h =>
      refine ⟨0, ?_, ?_⟩
      · rw [h]
        simp
      · rw [h]
        simp
    | inr h =>
      obtain ⟨k, h1, h2⟩ := ih (i + 1) p h
      refine ⟨k + 1, ?_, ?_⟩
      · rw [List.getElem?_cons_succ]
        exact h1
      · omega

/-- Decoration indices grow strictly along the list. -/
theorem withIdx_snd_lt :
    ∀ (l : List (String × Nat)) (i : Nat),
      List.Pairwise (fun p q : (String × Nat) × Nat => p.2 < q.2) (withIdx l i) := by
  intro l
  induction l with
  | nil => intro i; exact List.Pairwise.nil
  | cons x xs ih =>
    intro i
    refine List.pairwise_cons.mpr ⟨?_, ih (i + 1)⟩
    intro q hq
    obtain ⟨k, _, h2⟩ := withIdx_mem xs (i + 1) q hq
    show i < q.2
    omega

/-- The decorated item list has no duplicates. -/
theorem withIdx_nodup (l : List (String × Nat)) (i : Nat) : (withIdx l i).Nodup :=
  (withIdx_snd_lt l i).imp fun hlt he => by rw [he] at hlt; exact lt_irrefl _ hlt

/-- Claim C6, core: the take of the decorated stable sort is ordered by count
descending with ties by first-occurrence position. -/
theorem most_common_pairwise_aux (tokens : List String) (k : Nat) :
    List.Pairwise (fun a b : String × Nat =>
        b.2 ≤ a.2 ∧ (a.2 = b.2 → firstIdx tokens a.1 < firstIdx tokens b.1))
      (((((withIdx ((dedupFirst tokens).map fun t => (t, tokens.count t)) 0).insertionSort
        mcKey)).map (·.1)).take k) := by
  set items := (dedupFirst tokens).map fun t => (t, tokens.count t) with hitems
  set deco := withIdx items 0 with hdeco
  have hsorted : List.Sorted mcKey (deco.insertionSort mcKey) :=
    List.sorted_insertionSort mcKey deco
  have hperm : (deco.insertionSort mcKey).Perm deco := List.perm_insertionSort mcKey deco
  have hnd : (deco.insertionSort mcKey).Nodup :=
    (List.Perm.nodup_iff hperm).mpr (withIdx_nodup items 0)
  have hpair : List.Pairwise (fun a b => mcKey a b ∧ a ≠ b) (deco.insertionSort mcKey) :=
    hsorted.and hnd
  have hR : List.Pairwise (fun a b : (String × Nat) × Nat =>
      b.1.2 ≤ a.1.2 ∧ (a.1.2 = b.1.2 → firstIdx tokens a.1.1 < firstIdx tokens b.1.1))
      (deco.insertionSort mcKey) := by
    refine List.Pairwise.imp_of_mem ?_ hpair
    intro a b ha hb hab
    obtain ⟨hk, hne⟩ := hab
    obtain ⟨ka, hka, hia⟩ := withIdx_mem items 0 a (hperm.subset ha)
    obtain ⟨kb, hkb, hib⟩ := withIdx_mem items 0 b (hperm.subset hb)
    rw [hitems, List.getElem?_map] at hka hkb
    obtain ⟨ta, hta, hfa⟩ := Option.map_eq_some'.mp hka
    obtain ⟨tb, htb, hfb⟩ := Option.map_eq_some'.mp hkb
    constructor
    · rcases hk with h | h
      · omega
      · have := h.1
        omega
    · intro htie
      have hile : a.2 ≤ b.2 := by
        rcases hk with h | h
        · omega
        · exact h.2
      have hklt : ka < kb := by
        rcases Nat.lt_or_ge ka kb with h | h
        · exact h
        · have hke : ka = kb := by omega
          subst hke
          rw [hta] at htb
          have htab : ta = tb := Option.some.inj htb
          have h1 : a.1 = b.1 := by rw [← hfa, ← hfb, htab]
          have h2 : a.2 = b.2 := by omega
          exact absurd (Prod.ext_iff.mpr ⟨h1, h2⟩) hne
      obtain ⟨hlta, hgeta⟩ := List.getElem?_eq_some.mp hta
      obtain ⟨hltb, hgetb⟩ := List.getElem?_eq_some.mp htb
      have hdp := List.pairwise_iff_get.mp (dedupAux_pairwise tokens [])
        ⟨ka, hlta⟩ ⟨kb, hltb⟩ hklt
      rw [List.get_eq_getElem, List.get_eq_getElem] at hdp
      have hha : a.1.1 = ta := by rw [← hfa]
      have hhb : b.1.1 = tb := by rw [← hfb]
      rw [hha, hhb, ← hgeta, ← hgetb]
      exact hdp
  exact (List.pairwise_map.mpr hR).sublist (List.take_sublist k _)

/-- Claim C6: `Counter(tokens).most_common(k)` returns at most `k`
(token, frequency) pairs, sorted by frequency descending with ties broken by
the first-occurrence position of the token in the input (stable); in
particular `most_common ["a","b","a","b"] 2 = [("a",2),("b",2)]`. -/
theorem c6_topk_ranking :
    (∀ (tokens : List String) (k : Nat),
      (most_common tokens k).length ≤ k ∧
      List.Pairwise (fun a b : String × Nat =>
        b.2 ≤ a.2 ∧ (a.2 = b.2 → firstIdx tokens a.1 < firstIdx tokens b.1))
        (most_common tokens k)) ∧
    most_common ["a", "b", "a", "b"] 2 = [("a", 2), ("b", 2)] := by
  refine ⟨fun tokens k => ⟨?_, ?_⟩, by decide⟩
  · exact List.length_take_le k _
  · exact most_common_pairwise_aux tokens k
